import Mathlib

/-!
Shallow embedding of the block-puzzle engine in `src/block_puzzle_game.jsx`.

The JS component keeps four pieces of React state: `grid` (8×8 array of
cells, each `null` or a color string), `queue` (three block definitions),
`selected` (a block or `null`) and `score` (a number).  We model cells as
`Option String`, the grid as a list of rows, and the whole state as a
structure.  JS array indexing `a[i]` (which yields `undefined` out of
range, and throws a `TypeError` when the base itself is `undefined`) is
modelled by `jsIndex` returning `Option`; the validation loop of
`placeBlock` therefore returns one of three outcomes: `ok`, `reject`
(the JS `return false`), or `crash` (a `TypeError` raised by indexing
into `undefined`).  Randomness (`getRandomBlock`) is modelled by passing
the freshly drawn block as an explicit argument.
-/

namespace BlockPuzzle

/-- The constant `GRID_SIZE = 8` from the source. -/
def GRID_SIZE : Nat := 8

/-- A cell holds `null` (`none`) or a color string. -/
abbrev Cell := Option String

abbrev Row := List Cell

abbrev Grid := List Row

/-- The function `emptyGrid()`: an 8×8 grid of `null`s. -/
def emptyGrid : Grid :=
  List.replicate GRID_SIZE (List.replicate GRID_SIZE none)

/-- A block definition: a color and a shape (rows of 0/1 flags). -/
structure Block where
  color : String
  shape : List (List Nat)
deriving DecidableEq, Repr

/-- The fixed `SHAPES` catalog of the source (8 entries). -/
def SHAPES : List Block :=
  [ ⟨"#ff6b6b", [[1, 1], [1, 1]]⟩,
    ⟨"#4dabf7", [[1, 1, 1]]⟩,
    ⟨"#51cf66", [[1, 0], [1, 1]]⟩,
    ⟨"#ffa94d", [[1, 1, 1, 1]]⟩,
    ⟨"#845ef7", [[1, 1, 0], [0, 1, 1]]⟩,
    ⟨"#f06595", [[1, 1, 1], [0, 1, 0]]⟩,
    ⟨"#20c997", [[1], [1], [1]]⟩,
    ⟨"#ffd43b", [[1, 1, 1], [1, 0, 0]]⟩ ]

/-- JS array read `l[i]` for an integer index: `undefined` (`none`) when
`i` is negative or past the end. -/
def jsIndex {α : Type} (l : List α) (i : Int) : Option α :=
  if 0 ≤ i then l.get? i.toNat else none

/-- Outcome of the validation loop of `placeBlock`. -/
inductive VRes where
  | ok
  | reject
  | crash
deriving DecidableEq, Repr

/-- One iteration of the validation loop at grid position `(rr, cc)`:
`if (r+i >= GRID_SIZE || c+j >= GRID_SIZE || newGrid[r+i][c+j] !== null)
 return false`.  Reading `newGrid[rr]` when `rr` is negative yields
`undefined`, and `undefined[cc]` throws (`crash`); reading `row[cc]` out
of range yields `undefined`, and `undefined !== null` is true (`reject`). -/
def checkOffset (g : Grid) (rr cc : Int) : VRes :=
  if (GRID_SIZE : Int) ≤ rr then .reject
  else if (GRID_SIZE : Int) ≤ cc then .reject
  else
    match jsIndex g rr with
    | none => .crash
    | some row =>
      match jsIndex row cc with
      | none => .reject
      | some none => .ok
      | some (some _) => .reject

/-- Inner validation loop over one shape row: cell `j` of the row is
checked at column `c + j`; only cells equal to `1` are checked. -/
def checkRowCells (g : Grid) (rr c : Int) : List Nat → VRes
  | [] => .ok
  | x :: xs =>
    if x = 1 then
      match checkOffset g rr c with
      | .ok => checkRowCells g rr (c + 1) xs
      | res => res
    else checkRowCells g rr (c + 1) xs

/-- The validation loop of `placeBlock` (the `canPlace` check of the
spec): shape row `i` is checked at grid row `r + i`. -/
def canPlace (g : Grid) (r c : Int) : List (List Nat) → VRes
  | [] => .ok
  | row :: rows =>
    match checkRowCells g r c row with
    | .ok => canPlace g (r + 1) c rows
    | res => res

/-- Replace element `n` of a list by `f` of it (a JS in-place row update). -/
def modifyAt {α : Type} : List α → Nat → (α → α) → List α
  | [], _, _ => []
  | x :: xs, 0, f => f x :: xs
  | x :: xs, n + 1, f => x :: modifyAt xs n f

/-- The write `newGrid[rr][cc] = color`. -/
def setCell (g : Grid) (rr cc : Nat) (color : String) : Grid :=
  modifyAt g rr (fun row => row.set cc (some color))

/-- Inner write loop over one shape row. -/
def placeRowCells (color : String) (rr c : Int) (g : Grid) : List Nat → Grid
  | [] => g
  | x :: xs =>
    placeRowCells color rr (c + 1)
      (if x = 1 then setCell g rr.toNat c.toNat color else g) xs

/-- The write loop of `placeBlock`: writes the block's color into every
occupied offset (only ever run after validation succeeded). -/
def placeCells (color : String) (r c : Int) (g : Grid) : List (List Nat) → Grid
  | [] => g
  | row :: rows => placeCells color (r + 1) c (placeRowCells color r c g row) rows

/-- The row-fullness test `grid[r].every((cell) => cell !== null)`. -/
def rowFull (row : Row) : Bool :=
  row.all (fun cell => cell.isSome)

/-- The test `row[c] !== null`, where the read may be `undefined` out of range. -/
def cellNotNull (x : Option Cell) : Bool :=
  match x with
  | some none => false
  | _ => true

/-- The column-fullness test `grid.every((row) => row[c] !== null)`. -/
def colFull (g : Grid) (c : Nat) : Bool :=
  g.all (fun row => cellNotNull (row.get? c))

/-- The collected `rowsToClear`: indices `r < 8` whose row is fully occupied. -/
def rowsToClear (g : Grid) : List Nat :=
  (List.range GRID_SIZE).filter (fun r => rowFull ((g.get? r).getD []))

/-- The collected `colsToClear`: indices `c < 8` whose column is fully occupied. -/
def colsToClear (g : Grid) : List Nat :=
  (List.range GRID_SIZE).filter (fun c => colFull g c)

/-- The row-zeroing loop `rowsToClear.forEach((r) => newGrid[r].fill(null))`. -/
def clearRowsFn (rs : List Nat) (g : Grid) : Grid :=
  rs.foldl (fun g r => modifyAt g r (fun row => row.map (fun _ => none))) g

/-- The column-zeroing loop `colsToClear.forEach((c) => newGrid.forEach((row) => (row[c] = null)))`. -/
def clearColsFn (cs : List Nat) (g : Grid) : Grid :=
  cs.foldl (fun g c => g.map (fun row => row.set c none)) g

/-- The function `handleClears(grid)`: detect all full rows and columns on the given
(post-placement) grid in one pass, then zero them out and award
`(rows + cols) * 200`; if nothing is full, return unchanged with no
score.  Returns the resulting grid and the score increment. -/
def handleClears (g : Grid) : Grid × Nat :=
  if (rowsToClear g).isEmpty && (colsToClear g).isEmpty then (g, 0)
  else (clearColsFn (colsToClear g) (clearRowsFn (rowsToClear g) g),
    ((rowsToClear g).length + (colsToClear g).length) * 200)

/-- The four pieces of React state the engine mutates. -/
structure GameState where
  grid : Grid
  queue : List Block
  selected : Option Block
  score : Nat
deriving DecidableEq, Repr

/-- Outcome of a placement attempt as observed by the caller. -/
inductive Outcome where
  | accepted
  | rejected
  | crashed
  | noSelection
deriving DecidableEq, Repr

/-- The function `updateQueue`: drop the front of the queue, append the freshly drawn
block, and clear the selection. -/
def updateQueue (nb : Block) (st : GameState) : GameState :=
  { st with queue := st.queue.drop 1 ++ [nb], selected := none }

/-- The function `placeBlock(r, c, block)`: validate the whole shape against the
current grid; on failure return `false` with no state change; on success
write the cells, run `handleClears`, and replenish the queue.  `nb` is
the block `getRandomBlock()` returns during replenishment. -/
def placeBlock (r c : Int) (b : Block) (nb : Block) (st : GameState) :
    Outcome × GameState :=
  match canPlace st.grid r c b.shape with
  | .crash => (.crashed, st)
  | .reject => (.rejected, st)
  | .ok =>
    let g1 := placeCells b.color r c st.grid b.shape
    let res := handleClears g1
    (.accepted,
      updateQueue nb { st with grid := res.1, score := st.score + res.2 })

/-- The grid cell click handler:
`onClick={() => selected && placeBlock(r, c, selected)}` —
a no-op when nothing is selected. -/
def attemptPlacement (r c : Int) (nb : Block) (st : GameState) :
    Outcome × GameState :=
  match st.selected with
  | none => (.noSelection, st)
  | some b => placeBlock r c b nb st

/-- The queue item click handler: `setSelected(b)`. -/
def selectBlock (b : Block) (st : GameState) : GameState :=
  { st with selected := some b }

/-- Initial state: empty grid, three drawn blocks, no selection, score 0. -/
def initState (b1 b2 b3 : Block) : GameState :=
  { grid := emptyGrid, queue := [b1, b2, b3], selected := none, score := 0 }

/-- Well-formedness of a grid: 8 rows of 8 cells, as every reachable
grid has. -/
def WFGrid (g : Grid) : Prop :=
  g.length = GRID_SIZE ∧ ∀ row ∈ g, row.length = GRID_SIZE

instance : DecidablePred WFGrid := fun g => by
  unfold WFGrid; infer_instance

/-- The cell of `g` at row `rr`, column `cc`, when both are in range. -/
def cellAt (g : Grid) (rr cc : Nat) : Option Cell :=
  (g.get? rr).bind (fun row => row.get? cc)

/-- The cell at `(rr, cc)` exists and holds a color. -/
def cellOccupied (g : Grid) (rr cc : Nat) : Prop :=
  ∃ s, cellAt g rr cc = some (some s)

instance (g : Grid) (rr cc : Nat) : Decidable (cellOccupied g rr cc) := by
  unfold cellOccupied
  rcases cellAt g rr cc with _ | (_ | s) <;> simp <;> infer_instance

/-- The offset check passes: both indices in range and the cell free. -/
def offFree (g : Grid) (rr cc : Nat) : Prop :=
  rr < GRID_SIZE ∧ cc < GRID_SIZE ∧ cellAt g rr cc = some none

instance (g : Grid) (rr cc : Nat) : Decidable (offFree g rr cc) := by
  unfold offFree; infer_instance

/-- Row `r` of `g` exists and is entirely empty. -/
def rowCleared (g : Grid) (r : Nat) : Bool :=
  ((g.get? r).getD []).all (fun cell => cell.isNone)

/-- Every row of `g` is empty at column `c`. -/
def colCleared (g : Grid) (c : Nat) : Bool :=
  g.all (fun row => ((row.get? c).getD none).isNone)

/-- No row and no column of the grid is fully occupied. -/
def NoFullLines (g : Grid) : Prop :=
  rowsToClear g = [] ∧ colsToClear g = []

instance : DecidablePred NoFullLines := fun g => by
  unfold NoFullLines; infer_instance

/-- Clearing columns acts row-wise: fold the per-row sets. -/
def rowClearCols (cs : List Nat) (row : Row) : Row :=
  cs.foldl (fun row c => row.set c none) row

/-- All cells of a row are `none`, phrased by index. -/
def RowAllNone (row : Row) : Prop :=
  ∀ k cell, row.get? k = some cell → cell = none

/-- Row `r` of the grid exists and is all-`none`. -/
def AllNoneAt (g : Grid) (r : Nat) : Prop :=
  ∃ row, g.get? r = some row ∧ RowAllNone row

/-! ### Concrete fixtures used by the witnesses -/

/-- The Square block, `SHAPES[0]`. -/
def squareBlock : Block := ⟨"#ff6b6b", [[1, 1], [1, 1]]⟩

/-- The vertical-line block, `SHAPES[6]`. -/
def vlineBlock : Block := ⟨"#20c997", [[1], [1], [1]]⟩

/-- A state with the Square selected on an empty board. -/
def rejectState : GameState :=
  { grid := emptyGrid
    queue := [squareBlock, squareBlock, squareBlock]
    selected := some squareBlock
    score := 0 }

/-- A state with the Square selected and a mixed queue. -/
def placeState : GameState :=
  { grid := emptyGrid
    queue := [squareBlock, vlineBlock, squareBlock]
    selected := some squareBlock
    score := 0 }

/-- A board where column 0 misses exactly rows 5–7 and row 7 misses
exactly column 0, so dropping the vertical line at (5,0) completes
row 7 and column 0 simultaneously. -/
def crossGrid : Grid :=
  [ [some "#fff", none, none, none, none, none, none, none],
    [some "#fff", none, none, none, none, none, none, none],
    [some "#fff", none, none, none, none, none, none, none],
    [some "#fff", none, none, none, none, none, none, none],
    [some "#fff", none, none, none, none, none, none, none],
    [none, none, none, none, none, none, none, none],
    [none, none, none, none, none, none, none, none],
    [none, some "#fff", some "#fff", some "#fff", some "#fff", some "#fff",
      some "#fff", some "#fff"] ]

/-- The board `crossGrid` with the vertical line selected. -/
def crossState : GameState :=
  { grid := crossGrid
    queue := [squareBlock, squareBlock, squareBlock]
    selected := some vlineBlock
    score := 0 }

/-- An otherwise-empty board whose cell (0,0) is occupied. -/
def occGrid : Grid := setCell emptyGrid 0 0 "#fff"

theorem modifyAt_length {α : Type} (l : List α) (n : Nat) (f : α → α) :
    (modifyAt l n f).length = l.length := by
  induction l generalizing n with
  | nil => rfl
  | cons x xs ih =>
    cases n with
    | zero => rfl
    | succ m => simpa [modifyAt] using ih m

theorem get?_modifyAt_self {α : Type} (l : List α) (n : Nat) (f : α → α) :
    (modifyAt l n f).get? n = (l.get? n).map f := by
  induction l generalizing n with
  | nil => rfl
  | cons x xs ih =>
    cases n with
    | zero => rfl
    | succ m => simpa [modifyAt] using ih m

theorem get?_modifyAt_ne {α : Type} (l : List α) (n m : Nat) (f : α → α)
    (h : m ≠ n) : (modifyAt l n f).get? m = l.get? m := by
  induction l generalizing n m with
  | nil => rfl
  | cons x xs ih =>
    cases n with
    | zero =>
      cases m with
      | zero => exact absurd rfl h
      | succ k => rfl
    | succ n' =>
      cases m with
      | zero => rfl
      | succ k => simpa [modifyAt] using ih n' k (by omega)

theorem get?_modifyAt {α : Type} (l : List α) (n m : Nat) (f : α → α) :
    (modifyAt l n f).get? m =
      if m = n then (l.get? m).map f else l.get? m := by
  by_cases h : m = n
  · rw [if_pos h, h, get?_modifyAt_self]
  · rw [if_neg h, get?_modifyAt_ne _ _ _ _ h]

theorem jsIndex_natCast {α : Type} (l : List α) (n : Nat) :
    jsIndex l (n : Int) = l.get? n := by
  simp [jsIndex]

/-- On natural indices over a well-formed grid, one validation-loop step
reduces to the spec-level test: out of bounds rejects, an occupied cell
rejects, a free cell passes — and the crash branch is unreachable. -/
theorem checkOffset_nat (g : Grid) (hg : g.length = GRID_SIZE)
    (hrow : ∀ row ∈ g, row.length = GRID_SIZE) (rr cc : Nat) :
    checkOffset g (rr : Int) (cc : Int) =
      if GRID_SIZE ≤ rr ∨ GRID_SIZE ≤ cc then .reject
      else if cellAt g rr cc = some none then .ok else .reject := by
  by_cases h1 : GRID_SIZE ≤ rr
  · have h1' : (GRID_SIZE : Int) ≤ (rr : Int) := by exact_mod_cast h1
    simp [checkOffset, h1', h1]
  · have h1' : ¬ (GRID_SIZE : Int) ≤ (rr : Int) := by exact_mod_cast h1
    by_cases h2 : GRID_SIZE ≤ cc
    · have h2' : (GRID_SIZE : Int) ≤ (cc : Int) := by exact_mod_cast h2
      simp [checkOffset, h1', h2', h1, h2]
    · have h2' : ¬ (GRID_SIZE : Int) ≤ (cc : Int) := by exact_mod_cast h2
      have hrr : rr < g.length := by omega
      obtain ⟨row, hrowget⟩ : ∃ row, g.get? rr = some row := by
        cases hget : g.get? rr with
        | none => exact absurd (List.get?_eq_none.mp hget) (by omega)
        | some row => exact ⟨row, rfl⟩
      have hlen : row.length = GRID_SIZE := hrow row (List.get?_mem hrowget)
      obtain ⟨cell, hcell⟩ : ∃ cell, row.get? cc = some cell := by
        cases hget : row.get? cc with
        | none => exact absurd (List.get?_eq_none.mp hget) (by omega)
        | some cell => exact ⟨cell, rfl⟩
      have hrowget' : g[rr]? = some row := by simpa using hrowget
      have hcell' : row[cc]? = some cell := by simpa using hcell
      cases cell with
      | none =>
        simp [checkOffset, h1', h2', h1, h2, jsIndex_natCast, hrowget',
          hcell', cellAt]
      | some s =>
        simp [checkOffset, h1', h2', h1, h2, jsIndex_natCast, hrowget',
          hcell', cellAt]

theorem cellAt_isSome (g : Grid) (hg : g.length = GRID_SIZE)
    (hrow : ∀ row ∈ g, row.length = GRID_SIZE) (rr cc : Nat)
    (h1 : rr < GRID_SIZE) (h2 : cc < GRID_SIZE) :
    ∃ cell, cellAt g rr cc = some cell := by
  obtain ⟨row, hrowget⟩ : ∃ row, g.get? rr = some row := by
    cases hget : g.get? rr with
    | none => exact absurd (List.get?_eq_none.mp hget) (by omega)
    | some row => exact ⟨row, rfl⟩
  have hlen : row.length = GRID_SIZE := hrow row (List.get?_mem hrowget)
  obtain ⟨cell, hcell⟩ : ∃ cell, row.get? cc = some cell := by
    cases hget : row.get? cc with
    | none => exact absurd (List.get?_eq_none.mp hget) (by omega)
    | some cell => exact ⟨cell, rfl⟩
  have hrowget' : g[rr]? = some row := by simpa using hrowget
  have hcell' : row[cc]? = some cell := by simpa using hcell
  exact ⟨cell, by simp [cellAt, hrowget', hcell']⟩

theorem checkOffset_nat_ok_iff (g : Grid) (hg : g.length = GRID_SIZE)
    (hrow : ∀ row ∈ g, row.length = GRID_SIZE) (rr cc : Nat) :
    (checkOffset g (rr : Int) (cc : Int) = .ok ↔ offFree g rr cc) := by
  rw [checkOffset_nat g hg hrow rr cc]
  by_cases h1 : GRID_SIZE ≤ rr ∨ GRID_SIZE ≤ cc
  · simp [h1, offFree]; omega
  · by_cases h2 : cellAt g rr cc = some none
    · simp [h1, h2, offFree]; omega
    · simp [h1, h2, offFree]

theorem checkOffset_nat_ne_crash (g : Grid) (hg : g.length = GRID_SIZE)
    (hrow : ∀ row ∈ g, row.length = GRID_SIZE) (rr cc : Nat) :
    checkOffset g (rr : Int) (cc : Int) ≠ .crash := by
  rw [checkOffset_nat g hg hrow rr cc]
  by_cases h1 : GRID_SIZE ≤ rr ∨ GRID_SIZE ≤ cc
  · simp [h1]
  · by_cases h2 : cellAt g rr cc = some none <;> simp [h1, h2]

theorem forall_get?_cons {α : Type} {x : α} {xs : List α} {Q : Nat → α → Prop} :
    (∀ i y, (x :: xs).get? i = some y → Q i y) ↔
      (Q 0 x ∧ ∀ i y, xs.get? i = some y → Q (i + 1) y) := by
  constructor
  · intro h
    refine ⟨h 0 x rfl, fun i y hy => h (i + 1) y (by simpa using hy)⟩
  · rintro ⟨h0, h⟩ i y hy
    cases i with
    | zero =>
      have : x = y := by simpa using hy
      exact this ▸ h0
    | succ k => exact h k y (by simpa using hy)

theorem checkRowCells_nat_ok_iff (g : Grid) (hg : g.length = GRID_SIZE)
    (hrow : ∀ row ∈ g, row.length = GRID_SIZE) (rr : Nat) :
    ∀ (xs : List Nat) (c : Nat),
      (checkRowCells g (rr : Int) (c : Int) xs = .ok ↔
        ∀ j x, xs.get? j = some x → x = 1 → offFree g rr (c + j)) := by
  intro xs
  induction xs with
  | nil => intro c; simp [checkRowCells]
  | cons x xs ih =>
    intro c
    have hcast : (c : Int) + 1 = ((c + 1 : Nat) : Int) := by push_cast; ring
    rw [forall_get?_cons]
    by_cases hx : x = 1
    · subst hx
      by_cases hfree : offFree g rr c
      · have hok : checkOffset g (rr : Int) (c : Int) = .ok :=
          (checkOffset_nat_ok_iff g hg hrow rr c).mpr hfree
        rw [checkRowCells, if_pos rfl, hok]
        simp only [hcast, ih (c + 1)]
        constructor
        · intro h
          refine ⟨fun _ => by simpa using hfree, fun i y hy h1 => ?_⟩
          have := h i y hy h1
          simpa [Nat.add_assoc, Nat.add_comm 1 i] using this
        · rintro ⟨_, h⟩ i y hy h1
          have := h i y hy h1
          simpa [Nat.add_assoc, Nat.add_comm 1 i] using this
      · have hne : checkOffset g (rr : Int) (c : Int) ≠ .ok := by
          intro h; exact hfree ((checkOffset_nat_ok_iff g hg hrow rr c).mp h)
        rw [checkRowCells, if_pos rfl]
        constructor
        · intro h
          exfalso
          rcases hres : checkOffset g (rr : Int) (c : Int) with _ | _ | _
          · exact hne hres
          · rw [hres] at h; exact VRes.noConfusion h
          · rw [hres] at h; exact VRes.noConfusion h
        · rintro ⟨h0, _⟩
          exact absurd (by simpa using h0 rfl) hfree
    · rw [checkRowCells, if_neg hx]
      simp only [hcast, ih (c + 1)]
      constructor
      · intro h
        refine ⟨fun h1 => absurd h1 hx, fun i y hy h1 => ?_⟩
        have := h i y hy h1
        simpa [Nat.add_assoc, Nat.add_comm 1 i] using this
      · rintro ⟨_, h⟩ i y hy h1
        have := h i y hy h1
        simpa [Nat.add_assoc, Nat.add_comm 1 i] using this

theorem checkRowCells_nat_ne_crash (g : Grid) (hg : g.length = GRID_SIZE)
    (hrow : ∀ row ∈ g, row.length = GRID_SIZE) (rr : Nat) :
    ∀ (xs : List Nat) (c : Nat),
      checkRowCells g (rr : Int) (c : Int) xs ≠ .crash := by
  intro xs
  induction xs with
  | nil => intro c; simp [checkRowCells]
  | cons x xs ih =>
    intro c
    have hcast : (c : Int) + 1 = ((c + 1 : Nat) : Int) := by push_cast; ring
    by_cases hx : x = 1
    · rw [checkRowCells, if_pos hx]
      rcases hres : checkOffset g (rr : Int) (c : Int) with _ | _ | _
      · rw [hcast]; exact ih (c + 1)
      · exact VRes.noConfusion
      · exact absurd hres (checkOffset_nat_ne_crash g hg hrow rr c)
    · rw [checkRowCells, if_neg hx, hcast]
      exact ih (c + 1)

theorem canPlace_nat_ok_iff (g : Grid) (hg : g.length = GRID_SIZE)
    (hrow : ∀ row ∈ g, row.length = GRID_SIZE) :
    ∀ (rows : List (List Nat)) (r c : Nat),
      (canPlace g (r : Int) (c : Int) rows = .ok ↔
        ∀ i row, rows.get? i = some row →
          ∀ j x, row.get? j = some x → x = 1 → offFree g (r + i) (c + j)) := by
  intro rows
  induction rows with
  | nil => intro r c; simp [canPlace]
  | cons row rows ih =>
    intro r c
    have hcast : (r : Int) + 1 = ((r + 1 : Nat) : Int) := by push_cast; ring
    rw [forall_get?_cons]
    by_cases hrowok : checkRowCells g (r : Int) (c : Int) row = .ok
    · rw [canPlace, hrowok, hcast]
      simp only [ih (r + 1) c]
      constructor
      · intro h
        refine ⟨?_, fun i y hy => ?_⟩
        · intro j x hj h1
          simpa using (checkRowCells_nat_ok_iff g hg hrow r row c).mp hrowok
              j x hj h1
        · intro j x hj h1
          have := h i y hy j x hj h1
          simpa [Nat.add_assoc, Nat.add_comm 1 i] using this
      · rintro ⟨_, h⟩ i y hy j x hj h1
        have := h i y hy j x hj h1
        simpa [Nat.add_assoc, Nat.add_comm 1 i] using this
    · rw [canPlace]
      constructor
      · intro h
        exfalso
        rcases hres : checkRowCells g (r : Int) (c : Int) row with _ | _ | _
        · exact hrowok hres
        · rw [hres] at h; exact VRes.noConfusion h
        · rw [hres] at h; exact VRes.noConfusion h
      · rintro ⟨h0, _⟩
        refine absurd ((checkRowCells_nat_ok_iff g hg hrow r row c).mpr ?_)
          hrowok
        intro j x hj h1
        simpa using h0 j x hj h1

theorem canPlace_nat_ne_crash (g : Grid) (hg : g.length = GRID_SIZE)
    (hrow : ∀ row ∈ g, row.length = GRID_SIZE) :
    ∀ (rows : List (List Nat)) (r c : Nat),
      canPlace g (r : Int) (c : Int) rows ≠ .crash := by
  intro rows
  induction rows with
  | nil => intro r c; simp [canPlace]
  | cons row rows ih =>
    intro r c
    have hcast : (r : Int) + 1 = ((r + 1 : Nat) : Int) := by push_cast; ring
    rcases hres : checkRowCells g (r : Int) (c : Int) row with _ | _ | _
    · rw [canPlace, hres, hcast]; exact ih (r + 1) c
    · rw [canPlace, hres]; exact VRes.noConfusion
    · exact absurd hres (checkRowCells_nat_ne_crash g hg hrow r row c)

theorem canPlace_nat_reject_iff (g : Grid) (hg : g.length = GRID_SIZE)
    (hrow : ∀ row ∈ g, row.length = GRID_SIZE)
    (rows : List (List Nat)) (r c : Nat) :
    (canPlace g (r : Int) (c : Int) rows = .reject ↔
      ∃ i row, rows.get? i = some row ∧
        ∃ j, row.get? j = some 1 ∧ ¬ offFree g (r + i) (c + j)) := by
  constructor
  · intro h
    by_contra hcon
    push_neg at hcon
    have : canPlace g (r : Int) (c : Int) rows = .ok := by
      rw [canPlace_nat_ok_iff g hg hrow rows r c]
      intro i row hi j x hj h1
      subst h1
      exact hcon i row hi j hj
    rw [this] at h
    exact VRes.noConfusion h
  · rintro ⟨i, row, hi, j, hj, hfail⟩
    have hne : canPlace g (r : Int) (c : Int) rows ≠ .ok := by
      intro h
      exact hfail ((canPlace_nat_ok_iff g hg hrow rows r c).mp h i row hi j 1
        hj rfl)
    rcases hres : canPlace g (r : Int) (c : Int) rows with _ | _ | _
    · exact absurd hres hne
    · rfl
    · exact absurd hres (canPlace_nat_ne_crash g hg hrow rows r c)

theorem not_offFree_iff (g : Grid) (hg : g.length = GRID_SIZE)
    (hrow : ∀ row ∈ g, row.length = GRID_SIZE) (rr cc : Nat) :
    (¬ offFree g rr cc ↔
      GRID_SIZE ≤ rr ∨ GRID_SIZE ≤ cc ∨ cellOccupied g rr cc) := by
  by_cases h1 : rr < GRID_SIZE
  · by_cases h2 : cc < GRID_SIZE
    · obtain ⟨cell, hcell⟩ := cellAt_isSome g hg hrow rr cc h1 h2
      cases cell with
      | none => simp [offFree, cellOccupied, h1, h2, hcell]
      | some s => simp [offFree, cellOccupied, h1, h2, hcell]
    · simp [offFree, h2]; omega
  · simp [offFree, h1]; omega

/-! ### Line-clear machinery -/

theorem clearColsFn_eq_map (cs : List Nat) (g : Grid) :
    clearColsFn cs g = g.map (rowClearCols cs) := by
  induction cs generalizing g with
  | nil =>
    show g = g.map (rowClearCols [])
    have hid : rowClearCols [] = id := funext fun _ => rfl
    rw [hid, List.map_id]
  | cons c cs ih =>
    show clearColsFn cs (g.map fun row => row.set c none) = _
    rw [ih, List.map_map]
    rfl

theorem rowClearCols_length (cs : List Nat) (row : Row) :
    (rowClearCols cs row).length = row.length := by
  induction cs generalizing row with
  | nil => rfl
  | cons c cs ih =>
    show (rowClearCols cs (row.set c none)).length = _
    rw [ih, List.length_set]

theorem get?_set_none_of_none (row : Row) (c c' : Nat)
    (h : row.get? c = some none) : (row.set c' none).get? c = some none := by
  by_cases hc : c' = c
  · subst hc
    rw [List.get?_set_eq, h]
    rfl
  · rw [List.get?_set_ne _ _ hc, h]

theorem rowClearCols_of_none (cs : List Nat) (row : Row) (c : Nat)
    (h : row.get? c = some none) :
    (rowClearCols cs row).get? c = some none := by
  induction cs generalizing row with
  | nil => exact h
  | cons c' cs ih =>
    exact ih (row.set c' none) (get?_set_none_of_none row c c' h)

theorem rowClearCols_mem_of_none (cs : List Nat) (row : Row) (c : Nat)
    (hmem : c ∈ cs) (hlt : c < row.length) :
    (rowClearCols cs row).get? c = some none := by
  induction cs generalizing row with
  | nil => exact absurd hmem (List.not_mem_nil c)
  | cons c' cs ih =>
    by_cases hc : c ∈ cs
    · exact ih (row.set c' none) hc (by rw [List.length_set]; exact hlt)
    · have hcc : c' = c := by
        rcases List.mem_cons.mp hmem with h | h
        · exact h.symm
        · exact absurd h hc
      subst hcc
      exact rowClearCols_of_none cs _ c'
        (List.get?_set_eq_of_lt none hlt)

theorem RowAllNone_map_const (row : Row) :
    RowAllNone (row.map (fun _ => none)) := by
  intro k cell h
  rw [List.get?_map] at h
  cases hk : row.get? k with
  | none => rw [hk] at h; exact Option.noConfusion h
  | some x => rw [hk] at h; simpa using h.symm

theorem RowAllNone_set_none (row : Row) (c : Nat) (h : RowAllNone row) :
    RowAllNone (row.set c none) := by
  intro k cell hk
  by_cases hc : c = k
  · subst hc
    rw [List.get?_set_eq] at hk
    cases hcell : row.get? c with
    | none => rw [hcell] at hk; exact Option.noConfusion hk
    | some x => rw [hcell] at hk; simpa using hk.symm
  · rw [List.get?_set_ne _ _ hc] at hk
    exact h k cell hk

theorem RowAllNone_rowClearCols (cs : List Nat) (row : Row)
    (h : RowAllNone row) : RowAllNone (rowClearCols cs row) := by
  induction cs generalizing row with
  | nil => exact h
  | cons c cs ih => exact ih (row.set c none) (RowAllNone_set_none row c h)

theorem AllNoneAt_clear_step (g : Grid) (r r' : Nat) (h : AllNoneAt g r) :
    AllNoneAt (modifyAt g r' (fun row => row.map (fun _ => none))) r := by
  obtain ⟨row, hget, hnone⟩ := h
  by_cases hr : r = r'
  · subst hr
    refine ⟨row.map (fun _ => none), ?_, RowAllNone_map_const row⟩
    rw [get?_modifyAt_self, hget]
    rfl
  · exact ⟨row, by rw [get?_modifyAt_ne _ _ _ _ hr]; exact hget, hnone⟩

theorem clearRowsFn_length (rs : List Nat) (g : Grid) :
    (clearRowsFn rs g).length = g.length := by
  induction rs generalizing g with
  | nil => rfl
  | cons r rs ih =>
    show (clearRowsFn rs (modifyAt g r _)).length = _
    rw [ih, modifyAt_length]

theorem clearRowsFn_get?_of_not_mem (rs : List Nat) (g : Grid) (r : Nat)
    (h : r ∉ rs) : (clearRowsFn rs g).get? r = g.get? r := by
  induction rs generalizing g with
  | nil => rfl
  | cons r' rs ih =>
    have hr : r ∉ rs := fun hmem => h (List.mem_cons_of_mem _ hmem)
    have hne : r ≠ r' := fun he => h (he ▸ List.mem_cons_self r' rs)
    show (clearRowsFn rs (modifyAt g r' _)).get? r = _
    rw [ih _ hr, get?_modifyAt_ne _ _ _ _ hne]

theorem AllNoneAt_clearRowsFn_preserved (rs : List Nat) (g : Grid) (r : Nat)
    (h : AllNoneAt g r) : AllNoneAt (clearRowsFn rs g) r := by
  induction rs generalizing g with
  | nil => exact h
  | cons r' rs ih => exact ih _ (AllNoneAt_clear_step g r r' h)

theorem AllNoneAt_clearRowsFn_mem (rs : List Nat) (g : Grid) (r : Nat)
    (hmem : r ∈ rs) (hlt : r < g.length) :
    AllNoneAt (clearRowsFn rs g) r := by
  induction rs generalizing g with
  | nil => exact absurd hmem (List.not_mem_nil r)
  | cons r' rs ih =>
    by_cases hr : r ∈ rs
    · exact ih _ hr (by rw [modifyAt_length]; exact hlt)
    · have hrr : r' = r := by
        rcases List.mem_cons.mp hmem with h | h
        · exact h.symm
        · exact absurd h hr
      subst hrr
      refine AllNoneAt_clearRowsFn_preserved rs _ r' ?_
      obtain ⟨row, hget⟩ : ∃ row, g.get? r' = some row := by
        cases hget : g.get? r' with
        | none => exact absurd (List.get?_eq_none.mp hget) (by omega)
        | some row => exact ⟨row, rfl⟩
      refine ⟨row.map (fun _ => none), ?_, RowAllNone_map_const row⟩
      rw [get?_modifyAt_self, hget]
      rfl

theorem AllNoneAt_clearColsFn (cs : List Nat) (g : Grid) (r : Nat)
    (h : AllNoneAt g r) : AllNoneAt (clearColsFn cs g) r := by
  obtain ⟨row, hget, hnone⟩ := h
  rw [clearColsFn_eq_map]
  refine ⟨rowClearCols cs row, ?_, RowAllNone_rowClearCols cs row hnone⟩
  rw [List.get?_map, hget]
  rfl

/-! ### Well-formedness preservation -/

theorem mem_modifyAt {α : Type} (l : List α) (n : Nat) (f : α → α) :
    ∀ y ∈ modifyAt l n f, y ∈ l ∨ ∃ x ∈ l, y = f x := by
  induction l generalizing n with
  | nil => intro y hy; exact absurd hy (List.not_mem_nil y)
  | cons x xs ih =>
    intro y hy
    cases n with
    | zero =>
      rcases List.mem_cons.mp hy with h | h
      · exact Or.inr ⟨x, List.mem_cons_self x xs, h⟩
      · exact Or.inl (List.mem_cons_of_mem x h)
    | succ m =>
      rcases List.mem_cons.mp hy with h | h
      · exact Or.inl (h ▸ List.mem_cons_self x xs)
      · rcases ih m y h with h' | ⟨z, hz, he⟩
        · exact Or.inl (List.mem_cons_of_mem x h')
        · exact Or.inr ⟨z, List.mem_cons_of_mem x hz, he⟩

theorem WFGrid_modifyAt (g : Grid) (n : Nat) (f : Row → Row)
    (hf : ∀ row, (f row).length = row.length) (h : WFGrid g) :
    WFGrid (modifyAt g n f) := by
  obtain ⟨hlen, hrows⟩ := h
  refine ⟨by rw [modifyAt_length]; exact hlen, fun row hrow => ?_⟩
  rcases mem_modifyAt g n f row hrow with h' | ⟨row0, hrow0, he⟩
  · exact hrows row h'
  · rw [he, hf row0]; exact hrows row0 hrow0

theorem WFGrid_setCell (g : Grid) (rr cc : Nat) (color : String)
    (h : WFGrid g) : WFGrid (setCell g rr cc color) :=
  WFGrid_modifyAt g rr _ (fun row => List.length_set row cc _) h

theorem WFGrid_placeRowCells (color : String) (xs : List Nat) :
    ∀ (rr c : Int) (g : Grid), WFGrid g →
      WFGrid (placeRowCells color rr c g xs) := by
  induction xs with
  | nil => intro rr c g h; exact h
  | cons x xs ih =>
    intro rr c g h
    by_cases hx : x = 1
    · exact ih rr (c + 1) _ (by rw [if_pos hx]; exact WFGrid_setCell _ _ _ _ h)
    · exact ih rr (c + 1) _ (by rw [if_neg hx]; exact h)

theorem WFGrid_placeCells (color : String) (rows : List (List Nat)) :
    ∀ (r c : Int) (g : Grid), WFGrid g →
      WFGrid (placeCells color r c g rows) := by
  induction rows with
  | nil => intro r c g h; exact h
  | cons row rows ih =>
    intro r c g h
    exact ih (r + 1) c _ (WFGrid_placeRowCells color row r c g h)

theorem WFGrid_clearRowsFn (rs : List Nat) :
    ∀ g : Grid, WFGrid g → WFGrid (clearRowsFn rs g) := by
  induction rs with
  | nil => intro g h; exact h
  | cons r rs ih =>
    intro g h
    exact ih _ (WFGrid_modifyAt g r _ (fun row => List.length_map row _) h)

theorem WFGrid_clearColsFn (cs : List Nat) (g : Grid) (h : WFGrid g) :
    WFGrid (clearColsFn cs g) := by
  rw [clearColsFn_eq_map]
  obtain ⟨hlen, hrows⟩ := h
  refine ⟨by rw [List.length_map]; exact hlen, fun row hrow => ?_⟩
  obtain ⟨row0, hrow0, he⟩ := List.mem_map.mp hrow
  rw [← he, rowClearCols_length]
  exact hrows row0 hrow0

theorem WFGrid_handleClears (g : Grid) (h : WFGrid g) :
    WFGrid (handleClears g).1 := by
  unfold handleClears
  by_cases hemp : (rowsToClear g).isEmpty && (colsToClear g).isEmpty
  · simpa [hemp] using h
  · simpa [hemp] using
      WFGrid_clearColsFn _ _ (WFGrid_clearRowsFn _ g h)

theorem WFGrid_emptyGrid : WFGrid emptyGrid := by
  constructor
  · simp [emptyGrid]
  · intro row hrow
    rw [List.eq_of_mem_replicate hrow]
    simp

theorem rowFull_eq_false_iff (row : Row) :
    rowFull row = false ↔ ∃ k, row.get? k = some none := by
  constructor
  · intro h
    have hna : ¬ ∀ cell ∈ row, cell.isSome = true := by
      rw [← List.all_eq_true]
      simp [rowFull] at h
      simp [h]
    push_neg at hna
    obtain ⟨cell, hmem, hns⟩ := hna
    have hcell : cell = none := by
      cases cell with
      | none => rfl
      | some s => simp at hns
    obtain ⟨k, hk⟩ := List.mem_iff_get?.mp (hcell ▸ hmem)
    exact ⟨k, hk⟩
  · rintro ⟨k, hk⟩
    cases hall : rowFull row with
    | false => rfl
    | true =>
      exfalso
      unfold rowFull at hall
      have := List.all_eq_true.mp hall none (List.get?_mem hk)
      simp at this

theorem cellNotNull_eq_false_iff (x : Option Cell) :
    cellNotNull x = false ↔ x = some none := by
  rcases x with _ | (_ | s) <;> simp [cellNotNull]

theorem colFull_eq_false_iff (g : Grid) (c : Nat) :
    colFull g c = false ↔
      ∃ k row, g.get? k = some row ∧ row.get? c = some none := by
  constructor
  · intro h
    have hna : ¬ ∀ row ∈ g, cellNotNull (row.get? c) = true := by
      rw [← List.all_eq_true]
      simp [colFull] at h
      simp [h]
    push_neg at hna
    obtain ⟨row, hmem, hns⟩ := hna
    have : cellNotNull (row.get? c) = false := by
      cases hcn : cellNotNull (row.get? c) with
      | false => rfl
      | true => exact absurd hcn hns
    obtain ⟨k, hk⟩ := List.mem_iff_get?.mp hmem
    exact ⟨k, row, hk, (cellNotNull_eq_false_iff _).mp this⟩
  · rintro ⟨k, row, hk, hc⟩
    cases hall : colFull g c with
    | false => rfl
    | true =>
      exfalso
      unfold colFull at hall
      have := List.all_eq_true.mp hall row (List.get?_mem hk)
      rw [hc] at this
      simp [cellNotNull] at this

theorem mem_rowsToClear (g : Grid) (r : Nat) :
    r ∈ rowsToClear g ↔
      r < GRID_SIZE ∧ rowFull ((g.get? r).getD []) = true := by
  unfold rowsToClear
  rw [List.mem_filter, List.mem_range]

theorem mem_colsToClear (g : Grid) (c : Nat) :
    c ∈ colsToClear g ↔ c < GRID_SIZE ∧ colFull g c = true := by
  unfold colsToClear
  rw [List.mem_filter, List.mem_range]

/-- After clearing every detected row and column, one of the cleared
rows exists and is all-empty. -/
theorem cleared_AllNoneAt (g : Grid) (h : WFGrid g) (r0 : Nat)
    (hmem : r0 ∈ rowsToClear g) :
    AllNoneAt (clearColsFn (colsToClear g) (clearRowsFn (rowsToClear g) g))
      r0 := by
  have hr0 : r0 < g.length := by
    rw [h.1]
    exact ((mem_rowsToClear g r0).mp hmem).1
  exact AllNoneAt_clearColsFn _ _ _
    (AllNoneAt_clearRowsFn_mem _ g r0 hmem hr0)

/-- After clearing, every row of the grid is empty at each cleared
column. -/
theorem cleared_colNone (g : Grid) (h : WFGrid g) (c0 : Nat)
    (hmem : c0 ∈ colsToClear g) :
    ∀ k row,
      (clearColsFn (colsToClear g) (clearRowsFn (rowsToClear g) g)).get? k =
        some row →
      row.get? c0 = some none := by
  intro k row hk
  rw [clearColsFn_eq_map, List.get?_map] at hk
  cases hk1 : (clearRowsFn (rowsToClear g) g).get? k with
  | none => rw [hk1] at hk; exact Option.noConfusion hk
  | some row1 =>
    rw [hk1] at hk
    have hrow : row = rowClearCols (colsToClear g) row1 := by
      simpa using hk.symm
    have hlen : row1.length = GRID_SIZE :=
      (WFGrid_clearRowsFn _ g h).2 row1 (List.get?_mem hk1)
    have hc0 : c0 < row1.length := by
      rw [hlen]
      exact ((mem_colsToClear g c0).mp hmem).1
    rw [hrow]
    exact rowClearCols_mem_of_none _ row1 c0 hmem hc0

/-- The heart of the clear phase: after zeroing out every full row and
column detected on `g`, no full row and no full column remains. -/
theorem cleared_NoFullLines (g : Grid) (h : WFGrid g) :
    NoFullLines
      (clearColsFn (colsToClear g) (clearRowsFn (rowsToClear g) g)) := by
  have hWF1 : WFGrid (clearRowsFn (rowsToClear g) g) :=
    WFGrid_clearRowsFn _ g h
  have hWF2 : WFGrid
      (clearColsFn (colsToClear g) (clearRowsFn (rowsToClear g) g)) :=
    WFGrid_clearColsFn _ _ hWF1
  constructor
  · rw [rowsToClear, List.filter_eq_nil_iff]
    intro r hr
    rw [List.mem_range] at hr
    obtain ⟨row2, hrow2⟩ : ∃ row2,
        (clearColsFn (colsToClear g)
          (clearRowsFn (rowsToClear g) g)).get? r = some row2 := by
      cases hget : (clearColsFn (colsToClear g)
          (clearRowsFn (rowsToClear g) g)).get? r with
      | none =>
        exfalso
        have := List.get?_eq_none.mp hget
        rw [hWF2.1] at this
        omega
      | some row2 => exact ⟨row2, rfl⟩
    have hgoal : rowFull row2 = false := by
      by_cases hmem : r ∈ rowsToClear g
      · obtain ⟨row2', hget2, hnone⟩ := cleared_AllNoneAt g h r hmem
        have heq : row2 = row2' := by
          rw [hrow2] at hget2
          exact Option.some.inj hget2
        subst heq
        have hlen : row2.length = GRID_SIZE :=
          hWF2.2 row2 (List.get?_mem hrow2)
        obtain ⟨cell, hcell⟩ : ∃ cell, row2.get? 0 = some cell := by
          cases hget : row2.get? 0 with
          | none =>
            exfalso
            have := List.get?_eq_none.mp hget
            rw [hlen] at this
            simp [GRID_SIZE] at this
          | some cell => exact ⟨cell, rfl⟩
        rw [rowFull_eq_false_iff]
        exact ⟨0, by rw [hcell, hnone 0 cell hcell]⟩
      · have hnotfull : rowFull ((g.get? r).getD []) = false := by
          cases hrf : rowFull ((g.get? r).getD []) with
          | false => rfl
          | true => exact absurd ((mem_rowsToClear g r).mpr ⟨hr, hrf⟩) hmem
        obtain ⟨row0, hrow0⟩ : ∃ row0, g.get? r = some row0 := by
          cases hget : g.get? r with
          | none =>
            exfalso
            have := List.get?_eq_none.mp hget
            rw [h.1] at this
            omega
          | some row0 => exact ⟨row0, rfl⟩
        rw [hrow0] at hnotfull
        obtain ⟨k, hk⟩ := (rowFull_eq_false_iff row0).mp hnotfull
        have hget1 : (clearRowsFn (rowsToClear g) g).get? r = some row0 := by
          rw [clearRowsFn_get?_of_not_mem _ g r hmem]
          exact hrow0
        have hget2 : (clearColsFn (colsToClear g)
            (clearRowsFn (rowsToClear g) g)).get? r =
            some (rowClearCols (colsToClear g) row0) := by
          rw [clearColsFn_eq_map, List.get?_map, hget1]
          rfl
        have : row2 = rowClearCols (colsToClear g) row0 := by
          rw [hrow2] at hget2
          exact Option.some.inj hget2
        subst this
        rw [rowFull_eq_false_iff]
        exact ⟨k, rowClearCols_of_none _ row0 k hk⟩
    have hrow2' : (clearColsFn (colsToClear g)
        (clearRowsFn (rowsToClear g) g))[r]? = some row2 := by
      simpa using hrow2
    simp [hrow2', hgoal]
  · rw [colsToClear, List.filter_eq_nil_iff]
    intro c hc
    rw [List.mem_range] at hc
    have hgoal : colFull
        (clearColsFn (colsToClear g) (clearRowsFn (rowsToClear g) g)) c =
        false := by
      by_cases hmem : c ∈ colsToClear g
      · obtain ⟨row2, hrow2⟩ : ∃ row2,
            (clearColsFn (colsToClear g)
              (clearRowsFn (rowsToClear g) g)).get? 0 = some row2 := by
          cases hget : (clearColsFn (colsToClear g)
              (clearRowsFn (rowsToClear g) g)).get? 0 with
          | none =>
            exfalso
            have := List.get?_eq_none.mp hget
            rw [hWF2.1] at this
            simp [GRID_SIZE] at this
          | some row2 => exact ⟨row2, rfl⟩
        rw [colFull_eq_false_iff]
        exact ⟨0, row2, hrow2, cleared_colNone g h c hmem 0 row2 hrow2⟩
      · have hnotfull : colFull g c = false := by
          cases hcf : colFull g c with
          | false => rfl
          | true => exact absurd ((mem_colsToClear g c).mpr ⟨hc, hcf⟩) hmem
        obtain ⟨k, row0, hk, hkc⟩ := (colFull_eq_false_iff g c).mp hnotfull
        obtain ⟨row1, hget1, hc1⟩ : ∃ row1,
            (clearRowsFn (rowsToClear g) g).get? k = some row1 ∧
              row1.get? c = some none := by
          by_cases hkmem : k ∈ rowsToClear g
          · have hklt : k < g.length := by
              by_contra hcon
              rw [List.get?_eq_none.mpr (by omega)] at hk
              exact Option.noConfusion hk
            obtain ⟨row1, hget1, hnone⟩ :=
              AllNoneAt_clearRowsFn_mem _ g k hkmem hklt
            have hlen : row1.length = GRID_SIZE :=
              (WFGrid_clearRowsFn _ g h).2 row1 (List.get?_mem hget1)
            obtain ⟨cell, hcell⟩ : ∃ cell, row1.get? c = some cell := by
              cases hget : row1.get? c with
              | none =>
                exfalso
                have := List.get?_eq_none.mp hget
                rw [hlen] at this
                omega
              | some cell => exact ⟨cell, rfl⟩
            exact ⟨row1, hget1, by rw [hcell, hnone c cell hcell]⟩
          · refine ⟨row0, ?_, hkc⟩
            rw [clearRowsFn_get?_of_not_mem _ g k hkmem]
            exact hk
        have hget2 : (clearColsFn (colsToClear g)
            (clearRowsFn (rowsToClear g) g)).get? k =
            some (rowClearCols (colsToClear g) row1) := by
          rw [clearColsFn_eq_map, List.get?_map, hget1]
          rfl
        rw [colFull_eq_false_iff]
        exact ⟨k, rowClearCols (colsToClear g) row1, hget2,
          rowClearCols_of_none _ row1 c hc1⟩
    simp [hgoal]

/-- The function `handleClears` never leaves a full row or column behind. -/
theorem handleClears_NoFullLines (g : Grid) (h : WFGrid g) :
    NoFullLines (handleClears g).1 := by
  unfold handleClears
  by_cases hemp : (rowsToClear g).isEmpty && (colsToClear g).isEmpty
  · rw [Bool.and_eq_true] at hemp
    have h1 : rowsToClear g = [] := by
      simpa using List.isEmpty_iff.mp hemp.1
    have h2 : colsToClear g = [] := by
      simpa using List.isEmpty_iff.mp hemp.2
    simp only [h1, h2]
    exact ⟨h1, h2⟩
  · simp only [if_neg hemp]
    exact cleared_NoFullLines g h

/-! ### Crash-freedom for anchors with a nonnegative row -/

theorem checkOffset_ne_crash_nonneg (g : Grid) (hg : g.length = GRID_SIZE)
    (rr cc : Int) (hr : 0 ≤ rr) : checkOffset g rr cc ≠ .crash := by
  unfold checkOffset
  by_cases h1 : (GRID_SIZE : Int) ≤ rr
  · simp [h1]
  · by_cases h2 : (GRID_SIZE : Int) ≤ cc
    · simp [h1, h2]
    · have hlt : rr.toNat < g.length := by rw [hg]; omega
      obtain ⟨row, hrow⟩ : ∃ row, g.get? rr.toNat = some row := by
        cases hget : g.get? rr.toNat with
        | none => exact absurd (List.get?_eq_none.mp hget) (by omega)
        | some row => exact ⟨row, rfl⟩
      rw [if_neg h1, if_neg h2]
      have hgrow : jsIndex g rr = some row := by
        unfold jsIndex
        rw [if_pos hr]
        exact hrow
      rw [hgrow]
      rcases hcell : jsIndex row cc with _ | (_ | s) <;> simp [hcell]

theorem checkRowCells_ne_crash_nonneg (g : Grid) (hg : g.length = GRID_SIZE)
    (rr : Int) (hr : 0 ≤ rr) :
    ∀ (xs : List Nat) (c : Int), checkRowCells g rr c xs ≠ .crash := by
  intro xs
  induction xs with
  | nil => intro c; simp [checkRowCells]
  | cons x xs ih =>
    intro c
    by_cases hx : x = 1
    · rw [checkRowCells, if_pos hx]
      rcases hres : checkOffset g rr c with _ | _ | _
      · exact ih (c + 1)
      · exact VRes.noConfusion
      · exact absurd hres (checkOffset_ne_crash_nonneg g hg rr c hr)
    · rw [checkRowCells, if_neg hx]
      exact ih (c + 1)

theorem canPlace_ne_crash_nonneg (g : Grid) (hg : g.length = GRID_SIZE) :
    ∀ (rows : List (List Nat)) (r c : Int), 0 ≤ r →
      canPlace g r c rows ≠ .crash := by
  intro rows
  induction rows with
  | nil => intro r c _; simp [canPlace]
  | cons row rows ih =>
    intro r c hr
    rcases hres : checkRowCells g r c row with _ | _ | _
    · rw [canPlace, hres]
      exact ih (r + 1) c (by omega)
    · rw [canPlace, hres]
      exact VRes.noConfusion
    · exact absurd hres (checkRowCells_ne_crash_nonneg g hg r hr row c)

/-! ### Reduction lemmas for the engine operations -/

theorem placeBlock_reject_eq (st : GameState) (b nb : Block) (r c : Int)
    (hrej : canPlace st.grid r c b.shape = .reject) :
    placeBlock r c b nb st = (.rejected, st) := by
  unfold placeBlock
  rw [hrej]

theorem placeBlock_crash_eq (st : GameState) (b nb : Block) (r c : Int)
    (hcr : canPlace st.grid r c b.shape = .crash) :
    placeBlock r c b nb st = (.crashed, st) := by
  unfold placeBlock
  rw [hcr]

theorem placeBlock_ok_eq (st : GameState) (b nb : Block) (r c : Int)
    (hok : canPlace st.grid r c b.shape = .ok) :
    placeBlock r c b nb st = (.accepted,
      { grid := (handleClears (placeCells b.color r c st.grid b.shape)).1
        queue := st.queue.drop 1 ++ [nb]
        selected := none
        score := st.score +
          (handleClears (placeCells b.color r c st.grid b.shape)).2 }) := by
  unfold placeBlock
  rw [hok]
  rfl

theorem attemptPlacement_some (st : GameState) (b nb : Block) (r c : Int)
    (hsel : st.selected = some b) :
    attemptPlacement r c nb st = placeBlock r c b nb st := by
  unfold attemptPlacement
  rw [hsel]

theorem handleClears_eq_of_ne (g : Grid)
    (hne : ((rowsToClear g).isEmpty && (colsToClear g).isEmpty) = false) :
    handleClears g =
      (clearColsFn (colsToClear g) (clearRowsFn (rowsToClear g) g),
        ((rowsToClear g).length + (colsToClear g).length) * 200) := by
  unfold handleClears
  rw [hne]
  rfl

theorem handleClears_eq_of_nil (g : Grid) (h1 : rowsToClear g = [])
    (h2 : colsToClear g = []) : handleClears g = (g, 0) := by
  unfold handleClears
  rw [h1, h2]
  rfl

theorem handleClears_snd (g : Grid) :
    (handleClears g).2 =
      ((rowsToClear g).length + (colsToClear g).length) * 200 := by
  unfold handleClears
  by_cases hemp : ((rowsToClear g).isEmpty && (colsToClear g).isEmpty) = true
  · rw [if_pos hemp]
    rw [Bool.and_eq_true] at hemp
    rw [List.isEmpty_iff.mp hemp.1, List.isEmpty_iff.mp hemp.2]
    rfl
  · rw [if_neg hemp]

theorem AllNoneAt_rowCleared (g : Grid) (r : Nat) (h : AllNoneAt g r) :
    rowCleared g r = true := by
  obtain ⟨row, hget, hnone⟩ := h
  unfold rowCleared
  rw [hget, Option.getD_some, List.all_eq_true]
  intro cell hmem
  obtain ⟨k, hk⟩ := List.mem_iff_get?.mp hmem
  rw [hnone k cell hk]
  rfl

theorem colNone_colCleared (g : Grid) (c : Nat)
    (h : ∀ k row, g.get? k = some row → row.get? c = some none) :
    colCleared g c = true := by
  unfold colCleared
  rw [List.all_eq_true]
  intro row hmem
  obtain ⟨k, hk⟩ := List.mem_iff_get?.mp hmem
  rw [h k row hk]
  rfl

/-! ### Claim theorems -/

/-- Claim C1: if `placeBlock` rejects a placement (an occupied offset of the
shape is out of bounds or targets an occupied cell, i.e. the validation
loop returns `false`), `attemptPlacement` returns a rejection result and
the whole state — board, score, queue and selection — is exactly as it
was before the call; no partially-written board is observable. -/
theorem rejected_placement_leaves_state_unchanged
    (st : GameState) (b nb : Block) (r c : Int)
    (hsel : st.selected = some b)
    (hrej : canPlace st.grid r c b.shape = .reject) :
    attemptPlacement r c nb st = (.rejected, st) := by
  rw [attemptPlacement_some st b nb r c hsel]
  exact placeBlock_reject_eq st b nb r c hrej

theorem rejected_placement_leaves_state_unchanged_witness :
    rejectState.selected = some squareBlock ∧
    canPlace rejectState.grid 7 7 squareBlock.shape = .reject ∧
    attemptPlacement 7 7 squareBlock rejectState = (.rejected, rejectState) :=
  ⟨rfl, by decide,
    rejected_placement_leaves_state_unchanged rejectState squareBlock
      squareBlock 7 7 rfl (by decide)⟩

/-- Claim C2, counterexample: at the negative anchor `(-1, 0)` the Square
shape (which is in the catalog) has its occupied offset `(0,0)` map to
row `-1`, outside `[0,N)`; the validation loop does NOT return `false` —
it hits the `undefined[c+j]` read, a JS `TypeError` (`crash`). -/
theorem negative_anchor_row_crashes :
    (∃ blk ∈ SHAPES, blk.shape = [[1, 1], [1, 1]]) ∧
    canPlace emptyGrid (-1) 0 [[1, 1], [1, 1]] = .crash ∧
    canPlace emptyGrid (-1) 0 [[1, 1], [1, 1]] ≠ .reject := by
  decide

/-- Claim C2, amended: for every anchor with both coordinates nonnegative (the
only anchors the UI produces), if some occupied offset of the shape maps
outside `[0,N)` then the validation loop returns `false`, the placement
is rejected with the state unchanged, and no crash occurs; moreover no
anchor with a nonnegative row coordinate can crash.  (A negative
`anchorRow` does crash — see the counterexample.) -/
theorem out_of_bounds_rejected_for_nonneg_anchor
    (st : GameState) (b nb : Block) (r c : Nat)
    (hWF : WFGrid st.grid) (hsel : st.selected = some b)
    (hout : ∃ i row, b.shape.get? i = some row ∧
      ∃ j, row.get? j = some 1 ∧
        (GRID_SIZE ≤ r + i ∨ GRID_SIZE ≤ c + j)) :
    canPlace st.grid (r : Int) (c : Int) b.shape = .reject ∧
    attemptPlacement (r : Int) (c : Int) nb st = (.rejected, st) ∧
    (∀ r' c' : Int, 0 ≤ r' → canPlace st.grid r' c' b.shape ≠ .crash) := by
  obtain ⟨hg, hrow⟩ := hWF
  have hrej : canPlace st.grid (r : Int) (c : Int) b.shape = .reject := by
    rw [canPlace_nat_reject_iff st.grid hg hrow b.shape r c]
    obtain ⟨i, row, hi, j, hj, hbound⟩ := hout
    refine ⟨i, row, hi, j, hj, ?_⟩
    rw [not_offFree_iff st.grid hg hrow]
    rcases hbound with h | h
    · exact Or.inl h
    · exact Or.inr (Or.inl h)
  refine ⟨hrej, ?_, fun r' c' hr' => canPlace_ne_crash_nonneg st.grid hg
    b.shape r' c' hr'⟩
  rw [attemptPlacement_some st b nb (r : Int) (c : Int) hsel]
  exact placeBlock_reject_eq st b nb (r : Int) (c : Int) hrej

theorem out_of_bounds_rejected_for_nonneg_anchor_witness :
    WFGrid rejectState.grid ∧
    rejectState.selected = some squareBlock ∧
    squareBlock.shape.get? 1 = some [1, 1] ∧
    canPlace rejectState.grid ((7 : Nat) : Int) ((7 : Nat) : Int)
      squareBlock.shape = .reject ∧
    attemptPlacement ((7 : Nat) : Int) ((7 : Nat) : Int) squareBlock
      rejectState = (.rejected, rejectState) := by
  have h := out_of_bounds_rejected_for_nonneg_anchor rejectState squareBlock
    squareBlock 7 7 (by decide) rfl
    ⟨1, [1, 1], by decide, 0, by decide, Or.inl (by decide)⟩
  exact ⟨by decide, rfl, by decide, h.1, h.2.1⟩

/-- Claim C5: over a well-formed grid and for the (nonnegative) anchors the
UI produces, the validation loop returns `false` exactly when some
occupied offset `(i,j)` of the shape satisfies `anchorRow+i ≥ N`, or
`anchorCol+j ≥ N`, or targets an already-occupied cell of the
pre-placement grid; in particular an occupied target cell always forces
a rejection. -/
theorem canPlace_false_iff_out_of_bounds_or_occupied
    (g : Grid) (r c : Nat) (shape : List (List Nat)) (hWF : WFGrid g) :
    (canPlace g (r : Int) (c : Int) shape = .reject ↔
      ∃ i row, shape.get? i = some row ∧ ∃ j, row.get? j = some 1 ∧
        (GRID_SIZE ≤ r + i ∨ GRID_SIZE ≤ c + j ∨
          cellOccupied g (r + i) (c + j))) ∧
    (∀ i row j, shape.get? i = some row → row.get? j = some 1 →
      cellOccupied g (r + i) (c + j) →
      canPlace g (r : Int) (c : Int) shape = .reject) := by
  obtain ⟨hg, hrow⟩ := hWF
  have hiff := canPlace_nat_reject_iff g hg hrow shape r c
  constructor
  · rw [hiff]
    constructor
    · rintro ⟨i, row, hi, j, hj, hfail⟩
      exact ⟨i, row, hi, j, hj, (not_offFree_iff g hg hrow _ _).mp hfail⟩
    · rintro ⟨i, row, hi, j, hj, hcond⟩
      exact ⟨i, row, hi, j, hj, (not_offFree_iff g hg hrow _ _).mpr hcond⟩
  · intro i row j hi hj hocc
    rw [hiff]
    exact ⟨i, row, hi, j, hj,
      (not_offFree_iff g hg hrow _ _).mpr (Or.inr (Or.inr hocc))⟩

theorem canPlace_false_iff_out_of_bounds_or_occupied_witness :
    WFGrid occGrid ∧ cellOccupied occGrid 0 0 ∧
    canPlace occGrid ((0 : Nat) : Int) ((0 : Nat) : Int)
      [[1, 1], [1, 1]] = .reject :=
  ⟨by decide, ⟨"#fff", by decide⟩,
    (canPlace_false_iff_out_of_bounds_or_occupied occGrid 0 0
        [[1, 1], [1, 1]] (by decide)).2 0 [1, 1] 0 (by decide) (by decide)
      ⟨"#fff", by decide⟩⟩

/-- Claim C8: when no block is selected, a placement attempt is a no-op — it
raises no error and returns the state unchanged (board, score, queue and
selection untouched). -/
theorem no_selection_placement_noop
    (st : GameState) (nb : Block) (r c : Int)
    (h : st.selected = none) :
    attemptPlacement r c nb st = (.noSelection, st) := by
  unfold attemptPlacement
  rw [h]

theorem no_selection_placement_noop_witness :
    (initState squareBlock vlineBlock squareBlock).selected = none ∧
    attemptPlacement 3 3 squareBlock
        (initState squareBlock vlineBlock squareBlock) =
      (.noSelection, initState squareBlock vlineBlock squareBlock) :=
  ⟨rfl, no_selection_placement_noop
    (initState squareBlock vlineBlock squareBlock) squareBlock 3 3 rfl⟩

/-- Claim C10: the score starts at 0 and never decreases: every engine
operation — selection, and placement attempts of any outcome (no
selection, rejected, crashed, or accepted with or without clears) —
leaves the score greater than or equal to its previous value. -/
theorem score_monotone_nondecreasing :
    (∀ b1 b2 b3 : Block, (initState b1 b2 b3).score = 0) ∧
    (∀ (st : GameState) (r c : Int) (nb : Block),
      st.score ≤ (attemptPlacement r c nb st).2.score) ∧
    (∀ (st : GameState) (b : Block), (selectBlock b st).score = st.score) := by
  refine ⟨fun _ _ _ => rfl, ?_, fun _ _ => rfl⟩
  intro st r c nb
  cases hsel : st.selected with
  | none =>
    unfold attemptPlacement
    rw [hsel]
  | some b =>
    rw [attemptPlacement_some st b nb r c hsel]
    cases hres : canPlace st.grid r c b.shape with
    | ok =>
      rw [placeBlock_ok_eq st b nb r c hres]
      exact Nat.le_add_right _ _
    | reject => rw [placeBlock_reject_eq st b nb r c hres]
    | crash => rw [placeBlock_crash_eq st b nb r c hres]

/-- Claim C3: full rows and full columns are collected on the post-placement
grid before any cell is zeroed, so a placement that completes exactly
one row and one column clears both in the same event — the shared
intersection cell ends empty — and the score increases by exactly 400. -/
theorem simultaneous_row_col_clear
    (st : GameState) (b nb : Block) (r c : Int) (r0 c0 : Nat)
    (hWF : WFGrid st.grid) (hsel : st.selected = some b)
    (hok : canPlace st.grid r c b.shape = .ok)
    (hrows : rowsToClear (placeCells b.color r c st.grid b.shape) = [r0])
    (hcols : colsToClear (placeCells b.color r c st.grid b.shape) = [c0]) :
    (attemptPlacement r c nb st).1 = .accepted ∧
    (attemptPlacement r c nb st).2.score = st.score + 400 ∧
    rowCleared (attemptPlacement r c nb st).2.grid r0 = true ∧
    colCleared (attemptPlacement r c nb st).2.grid c0 = true ∧
    cellAt (attemptPlacement r c nb st).2.grid r0 c0 = some none := by
  have hWF1 : WFGrid (placeCells b.color r c st.grid b.shape) :=
    WFGrid_placeCells b.color b.shape r c st.grid hWF
  have hmemr : r0 ∈ rowsToClear (placeCells b.color r c st.grid b.shape) := by
    rw [hrows]
    exact List.mem_cons_self r0 []
  have hmemc : c0 ∈ colsToClear (placeCells b.color r c st.grid b.shape) := by
    rw [hcols]
    exact List.mem_cons_self c0 []
  have hAll := cleared_AllNoneAt _ hWF1 r0 hmemr
  have hCol := cleared_colNone _ hWF1 c0 hmemc
  have hne : ((rowsToClear (placeCells b.color r c st.grid b.shape)).isEmpty &&
      (colsToClear (placeCells b.color r c st.grid b.shape)).isEmpty) =
      false := by
    rw [hrows]
    rfl
  have hHC := handleClears_eq_of_ne _ hne
  rw [attemptPlacement_some st b nb r c hsel, placeBlock_ok_eq st b nb r c hok]
  refine ⟨rfl, ?_, ?_, ?_, ?_⟩
  · show st.score + (handleClears _).2 = st.score + 400
    rw [hHC, hrows, hcols]
    norm_num
  · show rowCleared (handleClears _).1 r0 = true
    rw [hHC]
    exact AllNoneAt_rowCleared _ r0 hAll
  · show colCleared (handleClears _).1 c0 = true
    rw [hHC]
    exact colNone_colCleared _ c0 hCol
  · show cellAt (handleClears _).1 r0 c0 = some none
    rw [hHC]
    obtain ⟨row, hget, _⟩ := hAll
    unfold cellAt
    rw [hget]
    exact hCol r0 row hget

theorem simultaneous_row_col_clear_witness :
    WFGrid crossState.grid ∧
    crossState.selected = some vlineBlock ∧
    canPlace crossState.grid 5 0 vlineBlock.shape = .ok ∧
    rowsToClear (placeCells vlineBlock.color 5 0 crossState.grid
      vlineBlock.shape) = [7] ∧
    colsToClear (placeCells vlineBlock.color 5 0 crossState.grid
      vlineBlock.shape) = [0] ∧
    (attemptPlacement 5 0 squareBlock crossState).2.score =
      crossState.score + 400 ∧
    rowCleared (attemptPlacement 5 0 squareBlock crossState).2.grid 7 = true ∧
    colCleared (attemptPlacement 5 0 squareBlock crossState).2.grid 0 = true ∧
    cellAt (attemptPlacement 5 0 squareBlock crossState).2.grid 7 0 =
      some none := by
  have h := simultaneous_row_col_clear crossState vlineBlock squareBlock 5 0
    7 0 (by decide) rfl (by decide) (by decide) (by decide)
  exact ⟨by decide, rfl, by decide, by decide, by decide, h.2.1, h.2.2.1,
    h.2.2.2.1, h.2.2.2.2⟩

/-- Claim C4: an accepted placement increases the score by exactly
`(rows + cols) * 200` where `rows`/`cols` count the lines that became
full on the post-placement grid — no multiplier, no escalation, no cap —
and when no line is full, no clear occurs and the score is unchanged. -/
theorem score_increases_per_cleared_line
    (st : GameState) (b nb : Block) (r c : Int)
    (hsel : st.selected = some b)
    (hok : canPlace st.grid r c b.shape = .ok) :
    (attemptPlacement r c nb st).1 = .accepted ∧
    (attemptPlacement r c nb st).2.score = st.score +
      ((rowsToClear (placeCells b.color r c st.grid b.shape)).length +
        (colsToClear (placeCells b.color r c st.grid b.shape)).length) *
        200 ∧
    (rowsToClear (placeCells b.color r c st.grid b.shape) = [] →
      colsToClear (placeCells b.color r c st.grid b.shape) = [] →
      (attemptPlacement r c nb st).2.grid =
        placeCells b.color r c st.grid b.shape ∧
      (attemptPlacement r c nb st).2.score = st.score) := by
  rw [attemptPlacement_some st b nb r c hsel, placeBlock_ok_eq st b nb r c hok]
  refine ⟨rfl, ?_, ?_⟩
  · show st.score + (handleClears _).2 = _
    rw [handleClears_snd]
  · intro h1 h2
    constructor
    · show (handleClears _).1 = _
      rw [handleClears_eq_of_nil _ h1 h2]
    · show st.score + (handleClears _).2 = st.score
      rw [handleClears_eq_of_nil _ h1 h2]
      rfl

theorem score_increases_per_cleared_line_witness :
    placeState.selected = some squareBlock ∧
    canPlace placeState.grid 0 0 squareBlock.shape = .ok ∧
    rowsToClear (placeCells squareBlock.color 0 0 placeState.grid
      squareBlock.shape) = [] ∧
    colsToClear (placeCells squareBlock.color 0 0 placeState.grid
      squareBlock.shape) = [] ∧
    (attemptPlacement 0 0 vlineBlock placeState).2.score =
      placeState.score := by
  have h := score_increases_per_cleared_line placeState squareBlock
    vlineBlock 0 0 rfl (by decide)
  exact ⟨rfl, by decide, by decide, by decide,
    (h.2.2 (by decide) (by decide)).2⟩

/-- Claim C6: the queue holds exactly 3 blocks at the start, after every
placement attempt of any outcome (with the selection reset to none on a
successful one), and after every selection action. -/
theorem queue_length_always_three :
    (∀ b1 b2 b3 : Block, (initState b1 b2 b3).queue.length = 3) ∧
    (∀ (st : GameState) (r c : Int) (nb : Block), st.queue.length = 3 →
      (attemptPlacement r c nb st).2.queue.length = 3 ∧
      ((attemptPlacement r c nb st).1 = .accepted →
        (attemptPlacement r c nb st).2.selected = none)) ∧
    (∀ (st : GameState) (b : Block), st.queue.length = 3 →
      (selectBlock b st).queue.length = 3) := by
  refine ⟨fun _ _ _ => rfl, ?_, fun st b h3 => h3⟩
  intro st r c nb h3
  cases hsel : st.selected with
  | none =>
    unfold attemptPlacement
    rw [hsel]
    exact ⟨h3, fun hacc => Outcome.noConfusion hacc⟩
  | some b =>
    rw [attemptPlacement_some st b nb r c hsel]
    cases hres : canPlace st.grid r c b.shape with
    | ok =>
      rw [placeBlock_ok_eq st b nb r c hres]
      refine ⟨?_, fun _ => rfl⟩
      show (st.queue.drop 1 ++ [nb]).length = 3
      rw [List.length_append, List.length_drop, h3]
      rfl
    | reject =>
      rw [placeBlock_reject_eq st b nb r c hres]
      exact ⟨h3, fun hacc => Outcome.noConfusion hacc⟩
    | crash =>
      rw [placeBlock_crash_eq st b nb r c hres]
      exact ⟨h3, fun hacc => Outcome.noConfusion hacc⟩

theorem queue_length_always_three_witness :
    rejectState.queue.length = 3 ∧
    (attemptPlacement 7 7 squareBlock rejectState).2.queue.length = 3 :=
  ⟨rfl, (queue_length_always_three.2.1 rejectState 7 7 squareBlock rfl).1⟩

/-- Claim C7: on a successful placement, `updateQueue` removes exactly the
front element of the queue, appends exactly the freshly drawn block at
the back, and keeps the two remaining elements in order — regardless of
which block was selected and placed. -/
theorem replenish_drops_front_appends_new
    (st : GameState) (b nb q0 q1 q2 : Block) (r c : Int)
    (hsel : st.selected = some b)
    (hq : st.queue = [q0, q1, q2])
    (hacc : (attemptPlacement r c nb st).1 = .accepted) :
    (updateQueue nb st).queue = [q1, q2, nb] ∧
    (attemptPlacement r c nb st).2.queue = [q1, q2, nb] := by
  have hupd : (updateQueue nb st).queue = [q1, q2, nb] := by
    show st.queue.drop 1 ++ [nb] = [q1, q2, nb]
    rw [hq]
    rfl
  refine ⟨hupd, ?_⟩
  rw [attemptPlacement_some st b nb r c hsel] at hacc ⊢
  cases hres : canPlace st.grid r c b.shape with
  | ok =>
    rw [placeBlock_ok_eq st b nb r c hres]
    show st.queue.drop 1 ++ [nb] = [q1, q2, nb]
    rw [hq]
    rfl
  | reject =>
    rw [placeBlock_reject_eq st b nb r c hres] at hacc
    exact Outcome.noConfusion hacc
  | crash =>
    rw [placeBlock_crash_eq st b nb r c hres] at hacc
    exact Outcome.noConfusion hacc

theorem replenish_drops_front_appends_new_witness :
    placeState.selected = some squareBlock ∧
    placeState.queue = [squareBlock, vlineBlock, squareBlock] ∧
    (attemptPlacement 0 0 vlineBlock placeState).1 = .accepted ∧
    (attemptPlacement 0 0 vlineBlock placeState).2.queue =
      [vlineBlock, squareBlock, vlineBlock] := by
  have h := replenish_drops_front_appends_new placeState squareBlock
    vlineBlock squareBlock vlineBlock squareBlock 0 0 rfl rfl (by decide)
  exact ⟨rfl, rfl, by decide, h.2⟩

/-- Claim C9, implicit: right after every completed placement attempt the
board has no fully occupied row or column — every line completed by an
accepted placement is cleared within the same operation, so a full line
is never observable between operations.  Stated as an inductive
invariant: it holds initially and is preserved by every engine
operation. -/
theorem no_full_lines_after_placement :
    (∀ b1 b2 b3 : Block, WFGrid (initState b1 b2 b3).grid ∧
      NoFullLines (initState b1 b2 b3).grid) ∧
    (∀ (st : GameState) (r c : Int) (nb : Block),
      WFGrid st.grid → NoFullLines st.grid →
      WFGrid (attemptPlacement r c nb st).2.grid ∧
      NoFullLines (attemptPlacement r c nb st).2.grid) ∧
    (∀ (st : GameState) (b : Block), WFGrid st.grid → NoFullLines st.grid →
      WFGrid (selectBlock b st).grid ∧ NoFullLines (selectBlock b st).grid) := by
  refine ⟨?_, ?_, fun st b hW hN => ⟨hW, hN⟩⟩
  · intro b1 b2 b3
    refine ⟨WFGrid_emptyGrid, ?_⟩
    show NoFullLines emptyGrid
    decide
  intro st r c nb hW hN
  cases hsel : st.selected with
  | none =>
    unfold attemptPlacement
    rw [hsel]
    exact ⟨hW, hN⟩
  | some b =>
    rw [attemptPlacement_some st b nb r c hsel]
    cases hres : canPlace st.grid r c b.shape with
    | ok =>
      rw [placeBlock_ok_eq st b nb r c hres]
      have hWF1 := WFGrid_placeCells b.color b.shape r c st.grid hW
      exact ⟨WFGrid_handleClears _ hWF1, handleClears_NoFullLines _ hWF1⟩
    | reject =>
      rw [placeBlock_reject_eq st b nb r c hres]
      exact ⟨hW, hN⟩
    | crash =>
      rw [placeBlock_crash_eq st b nb r c hres]
      exact ⟨hW, hN⟩

theorem no_full_lines_after_placement_witness :
    WFGrid crossState.grid ∧ NoFullLines crossState.grid ∧
    NoFullLines (attemptPlacement 5 0 squareBlock crossState).2.grid :=
  ⟨by decide, by decide,
    (no_full_lines_after_placement.2.1 crossState 5 0 squareBlock (by decide)
      (by decide)).2⟩

end BlockPuzzle
